import Mathlib

/-!
Verification of the PX4 parameter scraper (`parameter_scraping/px4_scraper.py`)
against its natural-language specification.

The development is a shallow embedding of the scraper:
* strings are handled through their character lists,
* the Python `dict` of parameters is an association list with
  replace-in-place insertion (Python dict assignment semantics),
* Python floats produced by `float(...)` on decimal literals are modelled as
  rationals (`Rat`); every numeric value appearing in the verified claims is a
  small decimal, so this representation is lossless,
* exceptions are modelled with `Option`/`Except`,
* the two regular expressions used by the scraper are deterministic on their
  input class (each bounded repetition is a maximal character-class run that
  cannot interact with the following literal, so greedy matching never
  backtracks productively) and are embedded as greedy scanners.
-/

/-! ## Character classes and basic string helpers -/

/-- Python `\s` on the ASCII range (whitespace characters recognised by
`str.strip()` and the `\s*` parts of the scraper regexes). -/
def isPySpace (c : Char) : Bool :=
  c = ' ' || c = '\t' || c = '\n' || c = '\r' || c = '\x0b' || c = '\x0c'

/-- Strip characters satisfying `p` from both ends of a character list,
modelling Python `str.strip(chars)`. -/
def stripBoth (p : Char → Bool) (cs : List Char) : List Char :=
  ((cs.dropWhile p).reverse.dropWhile p).reverse

/-- Python `str.strip()` (no argument): strip whitespace from both ends. -/
def pyStrip (s : String) : String :=
  String.mk (stripBoth isPySpace s.toList)

/-- The characters stripped by `line.strip('/* ')` in
`_process_parameter_definition`. -/
def isCommentDeco (c : Char) : Bool :=
  c = '/' || c = '*' || c = ' '

/-- `line.strip('/* ')`: strip comment decoration from both ends. -/
def stripDeco (s : String) : String :=
  String.mk (stripBoth isCommentDeco s.toList)

/-- `beginsWith pat cs` holds when `pat` is an initial run of `cs`. -/
def beginsWith : List Char → List Char → Bool
  | [], _ => true
  | _ :: _, [] => false
  | p :: ps, c :: cs => p = c && beginsWith ps cs

/-- Substring test on character lists (Python `pat in s` /
`re.search` of a literal pattern). -/
def containsSub (pat : List Char) : List Char → Bool
  | [] => beginsWith pat []
  | c :: cs => beginsWith pat (c :: cs) || containsSub pat cs

/-- Python substring containment `pat in s`. -/
def strContains (s pat : String) : Bool :=
  containsSub pat.toList s.toList

/-- Python `content.split('\n')`: split a character list at newlines; the
result always has one piece more than the number of newlines. -/
def splitOnNl : List Char → List (List Char)
  | [] => [[]]
  | c :: r =>
    let rest := splitOnNl r
    if c = '\n' then [] :: rest
    else
      match rest with
      | h :: t => (c :: h) :: t
      | [] => [[c]]

/-! ## Python number parsing -/

/-- Numeric value of a run of decimal digits. -/
def digitsToNat (cs : List Char) : Nat :=
  cs.foldl (fun a c => a * 10 + (c.toNat - 48)) 0

/-- Models Python `float(str)` on finite decimal literals: optional
whitespace, optional sign, digits with an optional decimal point and an
optional exponent.  Non-finite literals (`inf`, `nan`) and digit-group
underscores are outside the model; no value handled by the scraper's claims
uses them. -/
def parsePyFloat (s : String) : Option Rat :=
  let cs := stripBoth isPySpace s.toList
  let (neg, cs) :=
    match cs with
    | '-' :: r => (true, r)
    | '+' :: r => (false, r)
    | r => (false, r)
  let ip := cs.takeWhile Char.isDigit
  let cs := cs.dropWhile Char.isDigit
  let (fp, cs) :=
    match cs with
    | '.' :: r => (r.takeWhile Char.isDigit, r.dropWhile Char.isDigit)
    | r => ([], r)
  if ip.isEmpty && fp.isEmpty then none
  else
    let eres : Option Int :=
      match cs with
      | [] => some 0
      | e :: r =>
        if e = 'e' || e = 'E' then
          let (eneg, r) :=
            match r with
            | '-' :: r2 => (true, r2)
            | '+' :: r2 => (false, r2)
            | r2 => (false, r2)
          let ed := r.takeWhile Char.isDigit
          let r2 := r.dropWhile Char.isDigit
          if ed.isEmpty || !r2.isEmpty then none
          else some (if eneg then -(digitsToNat ed : Int) else (digitsToNat ed : Int))
        else none
    match eres with
    | none => none
    | some e =>
      let mant : Nat := digitsToNat (ip ++ fp)
      let scale : Int := e - fp.length
      let mag : Rat :=
        if 0 ≤ scale then mkRat (mant * 10 ^ scale.toNat) 1
        else mkRat mant (10 ^ (-scale).toNat)
      some (if neg then -mag else mag)

/-- Models Python `int(str)` on decimal literals: optional whitespace,
optional sign, at least one digit and nothing else. -/
def parsePyInt (s : String) : Option Int :=
  let cs := stripBoth isPySpace s.toList
  let (neg, cs) :=
    match cs with
    | '-' :: r => (true, r)
    | '+' :: r => (false, r)
    | r => (false, r)
  if cs.isEmpty || !(cs.all Char.isDigit) then none
  else some (if neg then -(digitsToNat cs : Int) else (digitsToNat cs : Int))

/-! ## The scraper's regular expressions

`re_comment_tag = @([a-zA-Z][a-zA-Z0-9_]*)\s*(.*)` and
`re_param_define =
   PARAM_DEFINE_([A-Z_][A-Z0-9_]*)\s*\(([A-Z_][A-Z0-9_]*)\s*,\s*([^ ,\)]+)\s*\)\s*;`
searched with `re.search` (leftmost match).  Every repetition in these
patterns is a maximal character-class run whose class is disjoint from the
literal that follows it (whitespace runs inside the default token cannot help
either, because the closing parenthesis is excluded from the default class),
so greedy scanning without backtracking is exact. -/

/-- `[a-zA-Z]`, the first character of an at-tag name. -/
def isTagStart (c : Char) : Bool := c.isUpper || c.isLower

/-- `[a-zA-Z0-9_]`, the remaining characters of an at-tag name. -/
def isTagChar (c : Char) : Bool := c.isUpper || c.isLower || c.isDigit || c = '_'

/-- `re_comment_tag.search(line)`: find the leftmost `@` followed by a letter;
the tag is the maximal `[a-zA-Z0-9_]*` run and the value is the rest of the
line after skipping whitespace. -/
def findTagMatch : List Char → Option (String × String)
  | [] => none
  | '@' :: c :: rest =>
    if isTagStart c then
      some (String.mk (c :: rest.takeWhile isTagChar),
            String.mk ((rest.dropWhile isTagChar).dropWhile isPySpace))
    else findTagMatch (c :: rest)
  | _ :: rest => findTagMatch rest

/-- `[A-Z_]`, the first character of the macro type/name captures. -/
def isUpperU (c : Char) : Bool := c.isUpper || c = '_'

/-- `[A-Z0-9_]`, the remaining characters of the macro type/name captures. -/
def isMacroChar (c : Char) : Bool := c.isUpper || c.isDigit || c = '_'

/-- `[^ ,\)]`, the characters allowed in the default-value capture. -/
def isDefaultChar (c : Char) : Bool := !(c = ' ' || c = ',' || c = ')')

/-- Consume a literal prefix. -/
def dropLit : List Char → List Char → Option (List Char)
  | [], cs => some cs
  | _ :: _, [] => none
  | l :: ls, c :: cs => if c = l then dropLit ls cs else none

/-- Consume `[A-Z_][A-Z0-9_]*` greedily. -/
def takeIdent : List Char → Option (List Char × List Char)
  | [] => none
  | c :: cs =>
    if isUpperU c then some (c :: cs.takeWhile isMacroChar, cs.dropWhile isMacroChar)
    else none

/-- Consume one expected character. -/
def expectChar (target : Char) : List Char → Option (List Char)
  | [] => none
  | c :: cs => if c = target then some cs else none

/-- Consume `[^ ,\)]+` greedily. -/
def takeDefault (cs : List Char) : Option (List Char × List Char) :=
  let d := cs.takeWhile isDefaultChar
  if d.isEmpty then none else some (d, cs.dropWhile isDefaultChar)

/-- Match `re_param_define` anchored at the start of `cs`, returning the
`(type, name, default)` captures. -/
def matchParamDefineAt (cs : List Char) : Option (String × String × String) := do
  let cs ← dropLit "PARAM_DEFINE_".toList cs
  let (ty, cs) ← takeIdent cs
  let cs := cs.dropWhile isPySpace
  let cs ← expectChar '(' cs
  let (nm, cs) ← takeIdent cs
  let cs := cs.dropWhile isPySpace
  let cs ← expectChar ',' cs
  let cs := cs.dropWhile isPySpace
  let (df, cs) ← takeDefault cs
  let cs := cs.dropWhile isPySpace
  let cs ← expectChar ')' cs
  let cs := cs.dropWhile isPySpace
  let _ ← expectChar ';' cs
  pure (String.mk ty, String.mk nm, String.mk df)

/-- `re_param_define.search(line)`: try every start position, leftmost first. -/
def paramDefineSearch : List Char → Option (String × String × String)
  | [] => none
  | c :: cs =>
    match matchParamDefineAt (c :: cs) with
    | some r => some r
    | none => paramDefineSearch cs

/-! ## Data model -/

/-- `ParameterMetadata` from the scraper.  `short_desc` and `long_desc` are
annotated `str` in the source but can hold `None` at runtime (an XML child
element with no text), hence `Option String` here; the source-scanner path
always stores strings. -/
structure ParameterMetadata where
  name : String
  type : String
  default : String
  short_desc : Option String
  long_desc : Option String
  min_val : Option Rat := none
  max_val : Option Rat := none
  unit : Option String := none
  decimal : Option Int := none
  group : String := "Uncategorized"
  values : List (String × Option String) := []
  volatile : Bool := false
  category : String := "Standard"
  source_file : Option String := none
  line_number : Option Nat := none
deriving DecidableEq, Repr

/-- The shared mapping `self.parameters`, a Python dict in insertion order. -/
abbrev Params := List (String × ParameterMetadata)

/-- Python dict assignment `m[k] = v`: replace the existing binding in place
when the key is present (dict keys are unique, so replacing the first
occurrence is exact), otherwise append the new binding at the end. -/
def dictInsert {α : Type} : List (String × α) → String → α → List (String × α)
  | [], k, v => [(k, v)]
  | p :: m, k, v => if p.1 == k then (k, v) :: m else p :: dictInsert m k v

/-- Python dict lookup `m.get(k)`. -/
def dictGet {α : Type} (m : List (String × α)) (k : String) : Option α :=
  (m.find? (fun p => p.1 == k)).map (fun p => p.2)

/-- The mapping invariant: at most one entry per parameter name. -/
def NodupKeys {α : Type} (m : List (String × α)) : Prop :=
  (m.map (fun p => p.1)).Nodup

/-! ## Comment-block interpretation (`_process_parameter_definition`) -/

/-- Accumulator of the comment-interpretation loop: the short description,
the long description and the transient `@tag` key/value dict. -/
structure CommentAcc where
  short_desc : String
  long_desc : String
  metadata : List (String × String)
deriving DecidableEq, Repr

/-- One iteration of the loop over buffered comment lines: strip comment
decoration, record an `@tag` line into the tag dict (last occurrence wins),
otherwise fill the short description if it is still empty (`not short_desc`)
or append to the long description with a trailing space. -/
def processCommentLine (acc : CommentAcc) (rawLine : String) : CommentAcc :=
  let line := stripDeco rawLine
  match findTagMatch line.toList with
  | some (tag, value) => { acc with metadata := dictInsert acc.metadata tag value }
  | none =>
    if acc.short_desc == "" then { acc with short_desc := line }
    else { acc with long_desc := acc.long_desc ++ line ++ " " }

/-- The whole comment-interpretation loop. -/
def processCommentLines (ls : List String) : CommentAcc :=
  ls.foldl processCommentLine { short_desc := "", long_desc := "", metadata := [] }

/-- `float(metadata[tag])` with the exception carried as an error message. -/
def floatOfTag (v : String) : Except String Rat :=
  match parsePyFloat v with
  | some r => .ok r
  | none => .error ("could not convert string to float: " ++ v)

/-- `int(metadata[tag])` with the exception carried as an error message. -/
def intOfTag (v : String) : Except String Int :=
  match parsePyInt v with
  | some n => .ok n
  | none => .error ("invalid literal for int() with base 10: " ++ v)

/-- The `try` body of `_process_parameter_definition`: interpret the comment
buffer, build the `ParameterMetadata` and set the optional tag-derived
fields; an unparsable numeric tag raises, modelled by `.error`. -/
def buildParam (param_type param_name param_default : String)
    (comment_lines : List String) (source_file : String) (line_number : Nat) :
    Except String ParameterMetadata := do
  let acc := processCommentLines comment_lines
  let base : ParameterMetadata := {
    name := param_name
    type := param_type
    default := param_default
    short_desc := some (pyStrip acc.short_desc)
    long_desc := some (pyStrip acc.long_desc)
    group := (dictGet acc.metadata "group").getD "Uncategorized"
    source_file := some source_file
    line_number := some line_number }
  let p ← match dictGet acc.metadata "min" with
    | some v => do pure { base with min_val := some (← floatOfTag v) }
    | none => pure base
  let p ← match dictGet acc.metadata "max" with
    | some v => do pure { p with max_val := some (← floatOfTag v) }
    | none => pure p
  let p : ParameterMetadata :=
    match dictGet acc.metadata "unit" with
    | some v => { p with unit := some v }
    | none => p
  let p ← match dictGet acc.metadata "decimal" with
    | some v => do pure { p with decimal := some (← intOfTag v) }
    | none => pure p
  let p : ParameterMetadata :=
    if (dictGet acc.metadata "volatile").isSome then { p with volatile := true } else p
  let p : ParameterMetadata :=
    match dictGet acc.metadata "category" with
    | some v => { p with category := v }
    | none => p
  pure p

/-- `_process_parameter_definition`, including its `except` clause: on
success the parameter is inserted under `param_name`; an exception is logged
with the offending parameter name and the mapping is left untouched. -/
def processParameterDefinition (param_type param_name param_default : String)
    (comment_lines : List String) (source_file : String) (line_number : Nat)
    (params : Params) : Params × List String :=
  match buildParam param_type param_name param_default comment_lines source_file
      line_number with
  | .ok p => (dictInsert params param_name p, [])
  | .error e =>
    (params, ["Error processing parameter " ++ param_name ++ ": " ++ e])

/-! ## The line scanner (`parse_source_file`) -/

/-- Scanner state: the accumulated comment buffer, the inside-comment flag,
the shared parameter mapping and the error log. -/
structure ScanSt where
  current_comment : List String
  in_comment : Bool
  params : Params
  log : List String
deriving DecidableEq, Repr

/-- One iteration of the `for line in content.split('\n')` loop.  The line is
stripped first; the branch order is exactly the source's
`if re_comment_start.search(line): ... elif in_comment: ... elif not in_comment: ...`
chain (the last guard is always true when reached, so it is an `else` here). -/
def stepLine (source_file : String) (line_number : Nat) (st : ScanSt)
    (rawLine : String) : ScanSt :=
  let line := pyStrip rawLine
  if strContains line "/**" then
    { st with in_comment := true, current_comment := [] }
  else if st.in_comment then
    if strContains line "*/" then
      { st with in_comment := false, current_comment := st.current_comment ++ [line] }
    else
      { st with current_comment := st.current_comment ++ [line] }
  else
    match paramDefineSearch line.toList with
    | some (t, n, d) =>
      let r := processParameterDefinition t n d st.current_comment source_file
        line_number st.params
      { st with params := r.1, log := st.log ++ r.2, current_comment := [] }
    | none => st

/-- The scanning loop; `line_number` is incremented before each line is
processed, so the first line is numbered 1. -/
def scanLines (source_file : String) : ScanSt → Nat → List String → ScanSt
  | st, _, [] => st
  | st, n, l :: ls => scanLines source_file (stepLine source_file (n + 1) st l) (n + 1) ls

/-- The `try` body of `parse_source_file`: split the file contents on
newlines and run the scanner from the outside-comment state.  `relPath` is
`src_path.relative_to(repo_path)`. -/
def parse_source_file (relPath : String) (content : String) (params : Params) :
    Params × List String :=
  let lines := (splitOnNl content.toList).map (fun cs => String.mk cs)
  let st0 : ScanSt :=
    { current_comment := [], in_comment := false, params := params, log := [] }
  let st := scanLines relPath st0 0 lines
  (st.params, st.log)

/-! ## XML ingestion (`parse_xml_file`, `_parse_parameter`) -/

/-- An `xml.etree.ElementTree.Element`: tag, attributes, child elements and
optional text (`Element.text` is `None` for an element with no text). -/
inductive Xml where
  | elem (tag : String) (attrib : List (String × String)) (children : List Xml)
      (text : Option String)

/-- The element's tag. -/
def Xml.tag : Xml → String
  | .elem t _ _ _ => t

/-- The element's attribute dict. -/
def Xml.attrib : Xml → List (String × String)
  | .elem _ a _ _ => a

/-- The element's list of child elements. -/
def Xml.children : Xml → List Xml
  | .elem _ _ c _ => c

/-- `Element.text`. -/
def Xml.text : Xml → Option String
  | .elem _ _ _ t => t

/-- `elem.attrib.get(k)`. -/
def Xml.attribGet (e : Xml) (k : String) : Option String :=
  dictGet e.attrib k

/-- `elem.find(tag)`: the first direct child with the given tag. -/
def Xml.find (e : Xml) (t : String) : Option Xml :=
  e.children.find? (fun c => c.tag == t)

/-- `elem.findall(tag)`: all direct children with the given tag. -/
def Xml.findall (e : Xml) (t : String) : List Xml :=
  e.children.filter (fun c => c.tag == t)

/-- Truthiness of `param_elem.find(tag)` as used in
`if min_elem := param_elem.find('min'):` — `None` is falsy, and an
`ElementTree` Element is truthy exactly when it has child elements
(`len(element) != 0`); its text content does not matter. -/
def xmlTruthy : Option Xml → Bool
  | none => false
  | some e => !e.children.isEmpty

/-- The `{value.attrib['code']: value.text for value in ...}` comprehension:
a missing `code` attribute raises (modelled by `none`), duplicate codes keep
the last occurrence. -/
def collectValues (vs : List Xml) : Option (List (String × Option String)) :=
  vs.foldlM (fun acc v => do
    let code ← v.attribGet "code"
    pure (dictInsert acc code v.text)) []

/-- `_parse_parameter`: build a `ParameterMetadata` from one XML `parameter`
element.  Any exception inside the function is caught by its own
`try/except` and turns into `None`, as does a missing or empty `name`
attribute (`if not name: return None`). -/
def parseParameterElem (param_elem : Xml) (group : String) :
    Option ParameterMetadata := do
  let name ← param_elem.attribGet "name"
  if name == "" then none
  else
    let shortD : Option String :=
      match param_elem.find "short_desc" with
      | some el => el.text
      | none => some ""
    let longD : Option String :=
      match param_elem.find "long_desc" with
      | some el => el.text
      | none => some ""
    let base : ParameterMetadata := {
      name := name
      type := (param_elem.attribGet "type").getD ""
      default := (param_elem.attribGet "default").getD ""
      short_desc := shortD
      long_desc := longD
      group := group
      volatile := param_elem.attribGet "volatile" == some "true" }
    let p ←
      if xmlTruthy (param_elem.find "min") then do
        let el ← param_elem.find "min"
        let t ← el.text
        let r ← parsePyFloat t
        pure { base with min_val := some r }
      else pure base
    let p ←
      if xmlTruthy (param_elem.find "max") then do
        let el ← param_elem.find "max"
        let t ← el.text
        let r ← parsePyFloat t
        pure { p with max_val := some r }
      else pure p
    let p ←
      if xmlTruthy (param_elem.find "unit") then do
        let el ← param_elem.find "unit"
        pure { p with unit := el.text }
      else pure p
    let p ←
      if xmlTruthy (param_elem.find "decimal") then do
        let el ← param_elem.find "decimal"
        let t ← el.text
        let n ← parsePyInt t
        pure { p with decimal := some n }
      else pure p
    let p ←
      match param_elem.find "values" with
      | some ve => do
        let vs ← collectValues (ve.findall "value")
        pure { p with values := vs }
      | none => pure p
    pure p

/-- `parse_xml_file`.  `ET.parse` reads and parses the whole document before
any element is visited, so a parse failure (the `.error` case, carrying the
exception text) occurs before anything is inserted into the mapping; the
`except` clause logs it and returns normally.  On success every `parameter`
element of every `group` element is ingested; `_parse_parameter` never lets
an exception escape (it returns `None` instead). -/
def parse_xml_file (doc : Except String Xml) (params : Params) :
    Params × List String :=
  match doc with
  | .error e => (params, ["Error parsing: " ++ e])
  | .ok root =>
    let ps := (root.findall "group").foldl (fun ps g =>
      let group_name := (g.attribGet "name").getD "Uncategorized"
      (g.findall "parameter").foldl (fun ps pe =>
        match parseParameterElem pe group_name with
        | some m => dictInsert ps m.name m
        | none => ps) ps) params
    (ps, [])

/-! ## The pipeline (`parse_all`) -/

/-- One source file met by the scan: `pathStr` is `str(src_file)` (the text
of the full path, used by the `'build' not in str(src_file)` filter),
`relPath` is `src_path.relative_to(repo_path)` and `content` is the file
text.  The surrounding `rglob` loop supplies these files already filtered to
the extensions `.c`, `.cpp`, `.h`, `.hpp`, in traversal order. -/
structure SourceFile where
  pathStr : String
  relPath : String
  content : String

/-- The source-scanning loop of `parse_all`: each file whose path text does
not contain `'build'` is parsed; the others are skipped. -/
def scanSourceFiles (files : List SourceFile) (start : Params) : Params :=
  files.foldl (fun ps f =>
    if strContains f.pathStr "build" then ps
    else (parse_source_file f.relPath f.content ps).1) start

/-- `parse_all`: the injected XML document (when the well-known path exists)
is ingested first into the empty mapping, then the source files are scanned;
the serializer receives the result.  Logs are not tracked at this level. -/
def parse_all (xmlDoc : Option (Except String Xml)) (files : List SourceFile) :
    Params :=
  let ps1 : Params :=
    match xmlDoc with
    | some doc => (parse_xml_file doc []).1
    | none => []
  scanSourceFiles files ps1

/-! ## Serialization (`save_parameters`)

`save_parameters` builds `params_dict`, a name-keyed dict of field dicts,
and hands it to `json.dump`.  The JSON document is modelled by its value
tree; `json.dump`/`json.load` are the (library) text codec around it. -/

/-- A JSON value. -/
inductive JVal where
  | null
  | jbool (b : Bool)
  | jnum (q : Rat)
  | jstr (s : String)
  | jarr (elems : List JVal)
  | jobj (fields : List (String × JVal))

/-- An optional number, `None` rendered as JSON null. -/
def jOptNum : Option Rat → JVal
  | some q => .jnum q
  | none => .null

/-- An optional integer, `None` rendered as JSON null. -/
def jOptInt : Option Int → JVal
  | some i => .jnum (i : Rat)
  | none => .null

/-- An optional natural number, `None` rendered as JSON null. -/
def jOptNat : Option Nat → JVal
  | some n => .jnum (n : Rat)
  | none => .null

/-- An optional string, `None` rendered as JSON null. -/
def jOptStr : Option String → JVal
  | some s => .jstr s
  | none => .null

/-- The per-parameter field dict written by `save_parameters`. -/
def encodeParam (p : ParameterMetadata) : JVal :=
  .jobj [
    ("name", .jstr p.name),
    ("type", .jstr p.type),
    ("default", .jstr p.default),
    ("short_desc", jOptStr p.short_desc),
    ("long_desc", jOptStr p.long_desc),
    ("min_val", jOptNum p.min_val),
    ("max_val", jOptNum p.max_val),
    ("unit", jOptStr p.unit),
    ("decimal", jOptInt p.decimal),
    ("group", .jstr p.group),
    ("values", .jobj (p.values.map (fun kv => (kv.1, jOptStr kv.2)))),
    ("volatile", .jbool p.volatile),
    ("category", .jstr p.category),
    ("source_file", jOptStr p.source_file),
    ("line_number", jOptNat p.line_number) ]

/-- `params_dict` as built by `save_parameters`: the whole JSON document. -/
def save_parameters (ps : Params) : JVal :=
  .jobj (ps.map (fun kv => (kv.1, encodeParam kv.2)))

/-! ### Deserialization (reading the written document back) -/

/-- Look a field up in a JSON object's field list. -/
def jField (fields : List (String × JVal)) (k : String) : Option JVal :=
  dictGet fields k

/-- Read a JSON string. -/
def jAsStr : JVal → Option String
  | .jstr s => some s
  | _ => none

/-- Read a JSON string or null. -/
def jAsOptStr : JVal → Option (Option String)
  | .null => some none
  | .jstr s => some (some s)
  | _ => none

/-- Read a JSON number or null. -/
def jAsOptNum : JVal → Option (Option Rat)
  | .null => some none
  | .jnum q => some (some q)
  | _ => none

/-- Read a JSON integer or null. -/
def jAsOptInt : JVal → Option (Option Int)
  | .null => some none
  | .jnum q => if q.den == 1 then some (some q.num) else none
  | _ => none

/-- Read a JSON natural number or null. -/
def jAsOptNat : JVal → Option (Option Nat)
  | .null => some none
  | .jnum q => if q.den == 1 then some (some q.num.toNat) else none
  | _ => none

/-- Read a JSON boolean. -/
def jAsBool : JVal → Option Bool
  | .jbool b => some b
  | _ => none

/-- Read the field list of the enum-values object. -/
def decodeValuesList : List (String × JVal) → Option (List (String × Option String))
  | [] => some []
  | kv :: rest => do
    let t ← jAsOptStr kv.2
    let r ← decodeValuesList rest
    pure ((kv.1, t) :: r)

/-- Read the enum-values object. -/
def jAsValues : JVal → Option (List (String × Option String))
  | .jobj fs => decodeValuesList fs
  | _ => none

/-- Read a string field. -/
def jGetStr (fs : List (String × JVal)) (k : String) : Option String :=
  (jField fs k).bind jAsStr

/-- Read a string-or-null field. -/
def jGetOptStr (fs : List (String × JVal)) (k : String) : Option (Option String) :=
  (jField fs k).bind jAsOptStr

/-- Read a number-or-null field. -/
def jGetOptNum (fs : List (String × JVal)) (k : String) : Option (Option Rat) :=
  (jField fs k).bind jAsOptNum

/-- The textual fields of one parameter dict (split out to keep the
monadic chains short). -/
def decodeParamText (fs : List (String × JVal)) :
    Option (String × String × String × Option String × Option String) := do
  let name ← jGetStr fs "name"
  let ty ← jGetStr fs "type"
  let df ← jGetStr fs "default"
  let sd ← jGetOptStr fs "short_desc"
  let ld ← jGetOptStr fs "long_desc"
  pure (name, ty, df, sd, ld)

/-- The numeric/optional fields of one parameter dict. -/
def decodeParamNums (fs : List (String × JVal)) :
    Option (Option Rat × Option Rat × Option String × Option Int × String) := do
  let mn ← jGetOptNum fs "min_val"
  let mx ← jGetOptNum fs "max_val"
  let un ← jGetOptStr fs "unit"
  let dc ← (jField fs "decimal").bind jAsOptInt
  let gp ← jGetStr fs "group"
  pure (mn, mx, un, dc, gp)

/-- The remaining fields of one parameter dict. -/
def decodeParamRest (fs : List (String × JVal)) :
    Option (List (String × Option String) × Bool × String × Option String × Option Nat) := do
  let vs ← (jField fs "values").bind jAsValues
  let vo ← (jField fs "volatile").bind jAsBool
  let ca ← jGetStr fs "category"
  let sf ← jGetOptStr fs "source_file"
  let ln ← (jField fs "line_number").bind jAsOptNat
  pure (vs, vo, ca, sf, ln)

/-- Reconstruct one `ParameterMetadata` from its field dict. -/
def decodeParam (j : JVal) : Option ParameterMetadata :=
  match j with
  | .jobj fs => do
    let (name, ty, df, sd, ld) ← decodeParamText fs
    let (mn, mx, un, dc, gp) ← decodeParamNums fs
    let (vs, vo, ca, sf, ln) ← decodeParamRest fs
    let r : ParameterMetadata := {
      name := name
      type := ty
      default := df
      short_desc := sd
      long_desc := ld
      min_val := mn
      max_val := mx
      unit := un
      decimal := dc
      group := gp
      values := vs
      volatile := vo
      category := ca
      source_file := sf
      line_number := ln }
    pure r
  | _ => none

/-- Reconstruct the entries of the name-keyed document object. -/
def decodeParamsList : List (String × JVal) → Option Params
  | [] => some []
  | kv :: rest => do
    let p ← decodeParam kv.2
    let r ← decodeParamsList rest
    pure ((kv.1, p) :: r)

/-- Reconstruct the whole name-keyed mapping from the JSON document. -/
def decodeParams (j : JVal) : Option Params :=
  match j with
  | .jobj fs => decodeParamsList fs
  | _ => none

/-! ## Concrete inputs used by the claim checks -/

/-- The text of a filesystem path whose segments are `segs`
(`seg1/seg2/.../segn`). -/
def pathChars : List String → List Char
  | [] => []
  | [s] => s.toList
  | s :: rest => s.toList ++ '/' :: pathChars rest

/-- An XML `parameter` element with a `name` attribute and text-only `min`,
`max`, `unit` and `decimal` children. -/
def c1Param : Xml :=
  .elem "parameter" [("name", "TEST_P"), ("type", "FLOAT"), ("default", "5")]
    [ .elem "min" [] [] (some "0"),
      .elem "max" [] [] (some "10"),
      .elem "unit" [] [] (some "m/s"),
      .elem "decimal" [] [] (some "2") ] none

/-- The end-to-end example file: a documentation block immediately followed
by a primary-form macro line. -/
def c4Content : String :=
  "/**\n* Short desc\n* @min 0\n* @max 10\n* @group Test\n*/\nPARAM_DEFINE_FLOAT(MY_PARAM, 1.5);"

/-- The entry the end-to-end example must produce. -/
def c4Expected : ParameterMetadata := {
  name := "MY_PARAM"
  type := "FLOAT"
  default := "1.5"
  short_desc := some "Short desc"
  long_desc := some ""
  min_val := some 0
  max_val := some 10
  unit := none
  decimal := none
  group := "Test"
  values := []
  volatile := false
  category := "Standard"
  source_file := some "test.c"
  line_number := some 7 }

/-- An injected-XML document defining parameter `DUP`. -/
def c5Xml : Xml :=
  .elem "parameters" [] [
    .elem "group" [("name", "GX")] [
      .elem "parameter" [("name", "DUP"), ("type", "INT32"), ("default", "7")]
        [] none ] none ] none

/-- A source tree defining the same parameter `DUP`. -/
def c5Files : List SourceFile :=
  [{ pathStr := "repo/src/a.c", relPath := "src/a.c",
     content := "PARAM_DEFINE_FLOAT(DUP, 2.0);" }]

/-- The source-derived entry for `DUP`. -/
def c5SrcEntry : ParameterMetadata := {
  name := "DUP"
  type := "FLOAT"
  default := "2.0"
  short_desc := some ""
  long_desc := some ""
  min_val := none
  max_val := none
  unit := none
  decimal := none
  group := "Uncategorized"
  values := []
  volatile := false
  category := "Standard"
  source_file := some "src/a.c"
  line_number := some 1 }

/-! ## Association-list (Python dict) lemmas -/

theorem dictGet_nil {α : Type} (k : String) :
    dictGet ([] : List (String × α)) k = none := rfl

theorem dictGet_cons {α : Type} (p : String × α) (m : List (String × α))
    (k : String) :
    dictGet (p :: m) k = if p.1 == k then some p.2 else dictGet m k := by
  by_cases h : (p.1 == k) = true
  · simp [dictGet, List.find?_cons, h]
  · simp only [Bool.not_eq_true] at h
    simp [dictGet, List.find?_cons, h]

/-- Replacement semantics, hit: looking up the inserted key yields the new
value. -/
theorem dictGet_dictInsert_self {α : Type} (m : List (String × α)) (k : String)
    (v : α) : dictGet (dictInsert m k v) k = some v := by
  induction m with
  | nil => simp [dictInsert, dictGet_cons]
  | cons p m ih =>
    by_cases hp : (p.1 == k) = true
    · simp [dictInsert, hp, dictGet_cons]
    · simp only [Bool.not_eq_true] at hp
      simp [dictInsert, hp, dictGet_cons, ih]

/-- Replacement semantics, miss: other keys are untouched. -/
theorem dictGet_dictInsert_ne {α : Type} (m : List (String × α)) (k k' : String)
    (v : α) (hne : k' ≠ k) : dictGet (dictInsert m k v) k' = dictGet m k' := by
  have hk : (k == k') = false := by
    simp only [beq_eq_false_iff_ne, ne_eq]
    exact fun hh => hne hh.symm
  induction m with
  | nil => simp [dictInsert, dictGet_cons, hk, dictGet_nil]
  | cons p m ih =>
    by_cases hp : (p.1 == k) = true
    · have hpk : p.1 = k := by simpa using hp
      have hp' : (p.1 == k') = false := by
        simp only [hpk, beq_eq_false_iff_ne, ne_eq]
        exact fun hh => hne hh.symm
      simp [dictInsert, hp, dictGet_cons, hk, hp']
    · simp only [Bool.not_eq_true] at hp
      simp [dictInsert, hp, dictGet_cons, ih]

/-- Keys after insertion are the inserted key or old keys. -/
theorem mem_keys_dictInsert {α : Type} (m : List (String × α)) (k : String)
    (v : α) (x : String) (hx : x ∈ (dictInsert m k v).map (fun p => p.1)) :
    x = k ∨ x ∈ m.map (fun p => p.1) := by
  induction m with
  | nil => simpa [dictInsert] using hx
  | cons p m ih =>
    by_cases hp : (p.1 == k) = true
    · simp only [dictInsert, hp, if_true, List.map_cons, List.mem_cons] at hx
      rcases hx with h | h
      · exact Or.inl h
      · exact Or.inr (by simp [h])
    · simp only [Bool.not_eq_true] at hp
      simp only [dictInsert, hp, Bool.false_eq_true, if_false, List.map_cons,
        List.mem_cons] at hx
      rcases hx with h | h
      · exact Or.inr (by simp [h])
      · rcases ih h with h' | h'
        · exact Or.inl h'
        · exact Or.inr (by simp [h'])

/-- Insertion preserves the at-most-one-entry-per-name invariant. -/
theorem nodupKeys_dictInsert {α : Type} (m : List (String × α)) (k : String)
    (v : α) (h : NodupKeys m) : NodupKeys (dictInsert m k v) := by
  induction m with
  | nil => simp [NodupKeys, dictInsert]
  | cons p m ih =>
    unfold NodupKeys at h
    simp only [List.map_cons, List.nodup_cons] at h
    obtain ⟨hnm, hnd⟩ := h
    by_cases hp : (p.1 == k) = true
    · have hpk : p.1 = k := by simpa using hp
      unfold NodupKeys
      simp only [dictInsert, hp, if_true, List.map_cons, List.nodup_cons]
      exact ⟨hpk ▸ hnm, hnd⟩
    · simp only [Bool.not_eq_true] at hp
      unfold NodupKeys
      simp only [dictInsert, hp, Bool.false_eq_true, if_false, List.map_cons,
        List.nodup_cons]
      refine ⟨?_, ih hnd⟩
      intro hmem
      rcases mem_keys_dictInsert m k v p.1 hmem with h' | h'
      · exact absurd h' (by simpa using hp)
      · exact hnm h'

/-! ## Round-trip lemmas for the serializer -/

theorem jAsOptStr_jOptStr (x : Option String) : jAsOptStr (jOptStr x) = some x := by
  cases x <;> rfl

theorem jAsOptNum_jOptNum (x : Option Rat) : jAsOptNum (jOptNum x) = some x := by
  cases x <;> rfl

theorem jAsOptInt_jOptInt (x : Option Int) : jAsOptInt (jOptInt x) = some x := by
  cases x with
  | none => rfl
  | some i => simp [jOptInt, jAsOptInt, Rat.den_intCast, Rat.num_intCast]

theorem jAsOptNat_jOptNat (x : Option Nat) : jAsOptNat (jOptNat x) = some x := by
  cases x with
  | none => rfl
  | some n => simp [jOptNat, jAsOptNat, Rat.den_natCast, Rat.num_natCast]

theorem jAsValues_encode (vs : List (String × Option String)) :
    jAsValues (JVal.jobj (vs.map (fun kv => (kv.1, jOptStr kv.2)))) = some vs := by
  induction vs with
  | nil => rfl
  | cons kv vs ih =>
    simp only [jAsValues] at ih ⊢
    simp [decodeValuesList, jAsOptStr_jOptStr, ih]

theorem decodeParamText_encode (p : ParameterMetadata) :
    decodeParamText (match encodeParam p with | .jobj fs => fs | _ => []) =
      some (p.name, p.type, p.default, p.short_desc, p.long_desc) := by
  simp [decodeParamText, encodeParam, jGetStr, jGetOptStr, jField, dictGet_cons,
    jAsStr, jAsOptStr_jOptStr]

theorem decodeParamNums_encode (p : ParameterMetadata) :
    decodeParamNums (match encodeParam p with | .jobj fs => fs | _ => []) =
      some (p.min_val, p.max_val, p.unit, p.decimal, p.group) := by
  simp [decodeParamNums, encodeParam, jGetStr, jGetOptStr, jGetOptNum, jField,
    dictGet_cons, jAsStr, jAsOptStr_jOptStr, jAsOptNum_jOptNum, jAsOptInt_jOptInt]

theorem decodeParamRest_encode (p : ParameterMetadata) :
    decodeParamRest (match encodeParam p with | .jobj fs => fs | _ => []) =
      some (p.values, p.volatile, p.category, p.source_file, p.line_number) := by
  simp [decodeParamRest, encodeParam, jGetStr, jGetOptStr, jField, dictGet_cons,
    jAsStr, jAsBool, jAsValues_encode, jAsOptStr_jOptStr, jAsOptNat_jOptNat]

/-- One parameter dict deserializes back to the parameter it was written
from. -/
theorem decodeParam_encodeParam (p : ParameterMetadata) :
    decodeParam (encodeParam p) = some p := by
  have ht := decodeParamText_encode p
  have hn := decodeParamNums_encode p
  have hr := decodeParamRest_encode p
  simp only [encodeParam] at ht hn hr
  simp [decodeParam, encodeParam, ht, hn, hr]

/-! ## Branch equations for the line scanner -/

theorem stepLine_open (src : String) (n : Nat) (st : ScanSt) (raw : String)
    (h : strContains (pyStrip raw) "/**" = true) :
    stepLine src n st raw = { st with in_comment := true, current_comment := [] } := by
  simp [stepLine, h]

theorem stepLine_inside_close (src : String) (n : Nat) (st : ScanSt) (raw : String)
    (h1 : strContains (pyStrip raw) "/**" = false) (h2 : st.in_comment = true)
    (h3 : strContains (pyStrip raw) "*/" = true) :
    stepLine src n st raw =
      { st with
        in_comment := false
        current_comment := st.current_comment ++ [pyStrip raw] } := by
  simp [stepLine, h1, h2, h3]

theorem stepLine_inside_cont (src : String) (n : Nat) (st : ScanSt) (raw : String)
    (h1 : strContains (pyStrip raw) "/**" = false) (h2 : st.in_comment = true)
    (h3 : strContains (pyStrip raw) "*/" = false) :
    stepLine src n st raw =
      { st with current_comment := st.current_comment ++ [pyStrip raw] } := by
  simp [stepLine, h1, h2, h3]

theorem stepLine_outside_none (src : String) (n : Nat) (st : ScanSt) (raw : String)
    (h1 : strContains (pyStrip raw) "/**" = false) (h2 : st.in_comment = false)
    (h3 : paramDefineSearch (pyStrip raw).toList = none) :
    stepLine src n st raw = st := by
  have h3' : paramDefineSearch (pyStrip raw).data = none := h3
  simp [stepLine, h1, h2, h3']

theorem stepLine_outside_some (src : String) (n : Nat) (st : ScanSt) (raw : String)
    (t nm d : String)
    (h1 : strContains (pyStrip raw) "/**" = false) (h2 : st.in_comment = false)
    (h3 : paramDefineSearch (pyStrip raw).toList = some (t, nm, d)) :
    stepLine src n st raw =
      { st with
        params := (processParameterDefinition t nm d st.current_comment src n
          st.params).1,
        log := st.log ++ (processParameterDefinition t nm d st.current_comment src n
          st.params).2,
        current_comment := [] } := by
  have h3' : paramDefineSearch (pyStrip raw).data = some (t, nm, d) := h3
  simp [stepLine, h1, h2, h3']

/-! ## Scanner-level lemmas -/

theorem scanLines_nil (src : String) (st : ScanSt) (n : Nat) :
    scanLines src st n [] = st := rfl

theorem scanLines_cons (src : String) (st : ScanSt) (n : Nat) (l : String)
    (ls : List String) :
    scanLines src st n (l :: ls) =
      scanLines src (stepLine src (n + 1) st l) (n + 1) ls := rfl

/-- Lines processed while inside an unterminated comment (no line contains
the close marker) leave the mapping and the log untouched and keep the
scanner inside the comment. -/
theorem scanLines_swallow (src : String) :
    ∀ (ls : List String) (st : ScanSt) (n : Nat), st.in_comment = true →
      (∀ l ∈ ls, strContains (pyStrip l) "*/" = false) →
      (scanLines src st n ls).params = st.params ∧
        (scanLines src st n ls).log = st.log ∧
        (scanLines src st n ls).in_comment = true := by
  intro ls
  induction ls with
  | nil => intro st n hic _; exact ⟨rfl, rfl, hic⟩
  | cons l ls ih =>
    intro st n hic hcl
    rw [scanLines_cons]
    by_cases hO : strContains (pyStrip l) "/**" = true
    · rw [stepLine_open src (n + 1) st l hO]
      exact ih _ (n + 1) rfl (fun x hx => hcl x (List.mem_cons_of_mem l hx))
    · simp only [Bool.not_eq_true] at hO
      rw [stepLine_inside_cont src (n + 1) st l hO hic
        (hcl l (List.mem_cons_self l ls))]
      exact ih _ (n + 1) hic (fun x hx => hcl x (List.mem_cons_of_mem l hx))

/-- The mapping produced by the scan factors as a sequence of insertions
that does not depend on the initial mapping or log. -/
theorem scanLines_factor (src : String) :
    ∀ (ls : List String) (cc : List String) (ic : Bool) (n : Nat),
      ∃ ins : List (String × ParameterMetadata),
        ∀ ps lg,
          (scanLines src (ScanSt.mk cc ic ps lg) n ls).params =
            ins.foldl (fun m kv => dictInsert m kv.1 kv.2) ps := by
  intro ls
  induction ls with
  | nil => intro cc ic n; exact ⟨[], fun ps lg => rfl⟩
  | cons l ls ih =>
    intro cc ic n
    by_cases hO : strContains (pyStrip l) "/**" = true
    · obtain ⟨ins, hins⟩ := ih [] true (n + 1)
      refine ⟨ins, fun ps lg => ?_⟩
      rw [scanLines_cons, stepLine_open src (n + 1) _ l hO]
      exact hins ps lg
    · simp only [Bool.not_eq_true] at hO
      by_cases hic : ic = true
      · subst hic
        by_cases hCl : strContains (pyStrip l) "*/" = true
        · obtain ⟨ins, hins⟩ := ih (cc ++ [pyStrip l]) false (n + 1)
          refine ⟨ins, fun ps lg => ?_⟩
          rw [scanLines_cons, stepLine_inside_close src (n + 1) _ l hO rfl hCl]
          exact hins ps lg
        · simp only [Bool.not_eq_true] at hCl
          obtain ⟨ins, hins⟩ := ih (cc ++ [pyStrip l]) true (n + 1)
          refine ⟨ins, fun ps lg => ?_⟩
          rw [scanLines_cons, stepLine_inside_cont src (n + 1) _ l hO rfl hCl]
          exact hins ps lg
      · simp only [Bool.not_eq_true] at hic
        subst hic
        cases hm : paramDefineSearch (pyStrip l).toList with
        | none =>
          obtain ⟨ins, hins⟩ := ih cc false (n + 1)
          refine ⟨ins, fun ps lg => ?_⟩
          rw [scanLines_cons, stepLine_outside_none src (n + 1) _ l hO rfl hm]
          exact hins ps lg
        | some r =>
          obtain ⟨t, nm, d⟩ := r
          obtain ⟨ins, hins⟩ := ih [] false (n + 1)
          cases hb : buildParam t nm d cc src (n + 1) with
          | ok p =>
            refine ⟨(nm, p) :: ins, fun ps lg => ?_⟩
            rw [scanLines_cons, stepLine_outside_some src (n + 1) _ l t nm d hO rfl hm]
            simp only [processParameterDefinition, hb]
            exact hins (dictInsert ps nm p) (lg ++ [])
          | error e =>
            refine ⟨ins, fun ps lg => ?_⟩
            rw [scanLines_cons, stepLine_outside_some src (n + 1) _ l t nm d hO rfl hm]
            simp only [processParameterDefinition, hb]
            exact hins ps
              (lg ++ ["Error processing parameter " ++ nm ++ ": " ++ e])

/-- One file's contribution factors as insertions independent of the initial
mapping. -/
theorem parse_source_file_factor (relPath content : String) :
    ∃ ins : List (String × ParameterMetadata),
      ∀ ps, (parse_source_file relPath content ps).1 =
        ins.foldl (fun m kv => dictInsert m kv.1 kv.2) ps := by
  obtain ⟨ins, hins⟩ := scanLines_factor relPath
    ((splitOnNl content.toList).map (fun cs => String.mk cs)) [] false 0
  exact ⟨ins, fun ps => hins ps []⟩

/-- The whole source scan factors as insertions independent of the initial
mapping. -/
theorem scanSourceFiles_factor :
    ∀ files : List SourceFile,
      ∃ ins : List (String × ParameterMetadata),
        ∀ ps, scanSourceFiles files ps =
          ins.foldl (fun m kv => dictInsert m kv.1 kv.2) ps := by
  intro files
  induction files with
  | nil => exact ⟨[], fun ps => rfl⟩
  | cons f files ih =>
    obtain ⟨ins, hins⟩ := ih
    by_cases hb : strContains f.pathStr "build" = true
    · refine ⟨ins, fun ps => ?_⟩
      simp only [scanSourceFiles, List.foldl_cons, hb, if_true]
      exact hins ps
    · simp only [Bool.not_eq_true] at hb
      obtain ⟨insf, hinsf⟩ := parse_source_file_factor f.relPath f.content
      refine ⟨insf ++ ins, fun ps => ?_⟩
      simp only [scanSourceFiles, List.foldl_cons, hb, Bool.false_eq_true, if_false]
      rw [List.foldl_append, ← hinsf ps]
      exact hins _

/-- Looking a key up after a sequence of insertions: an inserted key wins,
anything else falls through to the initial mapping. -/
theorem dictGet_foldl_inserts (ins : List (String × ParameterMetadata)) :
    ∀ (ps : Params) (k : String),
      dictGet (ins.foldl (fun m kv => dictInsert m kv.1 kv.2) ps) k =
        (dictGet (ins.foldl (fun m kv => dictInsert m kv.1 kv.2) []) k).or
          (dictGet ps k) := by
  induction ins with
  | nil => intro ps k; simp [dictGet_nil]
  | cons kv ins ih =>
    intro ps k
    simp only [List.foldl_cons]
    rw [ih (dictInsert ps kv.1 kv.2) k, ih (dictInsert [] kv.1 kv.2) k]
    cases hA : dictGet (ins.foldl (fun m kv => dictInsert m kv.1 kv.2) []) k with
    | some a => simp
    | none =>
      simp only [Option.none_or]
      by_cases hk : k = kv.1
      · subst hk
        rw [dictGet_dictInsert_self, dictGet_dictInsert_self]
        rfl
      · rw [dictGet_dictInsert_ne _ _ _ _ hk, dictGet_dictInsert_ne _ _ _ _ hk,
          dictGet_nil]
        rfl

/-- A sequence of insertions preserves the key invariant. -/
theorem nodupKeys_foldl_inserts (ins : List (String × ParameterMetadata)) :
    ∀ ps : Params, NodupKeys ps →
      NodupKeys (ins.foldl (fun m kv => dictInsert m kv.1 kv.2) ps) := by
  induction ins with
  | nil => intro ps h; exact h
  | cons kv ins ih =>
    intro ps h
    simp only [List.foldl_cons]
    exact ih _ (nodupKeys_dictInsert ps kv.1 kv.2 h)

/-- Generic preservation of the key invariant along a fold. -/
theorem nodupKeys_foldl {β : Type} (g : Params → β → Params)
    (hg : ∀ ps b, NodupKeys ps → NodupKeys (g ps b)) :
    ∀ (l : List β) (ps : Params), NodupKeys ps → NodupKeys (l.foldl g ps) := by
  intro l
  induction l with
  | nil => intro ps h; exact h
  | cons b l ih =>
    intro ps h
    simp only [List.foldl_cons]
    exact ih _ (hg ps b h)

/-- XML ingestion preserves the key invariant. -/
theorem nodupKeys_parse_xml_file (doc : Except String Xml) (ps : Params)
    (h : NodupKeys ps) : NodupKeys (parse_xml_file doc ps).1 := by
  cases doc with
  | error e => exact h
  | ok root =>
    simp only [parse_xml_file]
    refine nodupKeys_foldl _ ?_ _ ps h
    intro ps g hps
    refine nodupKeys_foldl _ ?_ _ ps hps
    intro ps pe hps2
    cases parseParameterElem pe ((g.attribGet "name").getD "Uncategorized") with
    | none => exact hps2
    | some m => exact nodupKeys_dictInsert ps m.name m hps2

/-- Scanning one source file preserves the key invariant. -/
theorem nodupKeys_parse_source_file (relPath content : String) (ps : Params)
    (h : NodupKeys ps) : NodupKeys (parse_source_file relPath content ps).1 := by
  obtain ⟨ins, hins⟩ := parse_source_file_factor relPath content
  rw [hins ps]
  exact nodupKeys_foldl_inserts ins ps h

/-- The whole pipeline result satisfies the key invariant. -/
theorem nodupKeys_parse_all (xmlDoc : Option (Except String Xml))
    (files : List SourceFile) : NodupKeys (parse_all xmlDoc files) := by
  obtain ⟨ins, hins⟩ := scanSourceFiles_factor files
  have hstart : NodupKeys (match xmlDoc with
      | some doc => (parse_xml_file doc []).1
      | none => ([] : Params)) := by
    cases xmlDoc with
    | none => simp [NodupKeys]
    | some doc => exact nodupKeys_parse_xml_file doc [] (by simp [NodupKeys])
  simp only [parse_all]
  rw [hins]
  exact nodupKeys_foldl_inserts ins _ hstart

/-- Any name that the source scan defines ends up in the final mapping with
the source-derived entry, whatever the XML ingestion produced before. -/
theorem parse_all_source_overrides (xmlDoc : Option (Except String Xml))
    (files : List SourceFile) (nm : String) (e : ParameterMetadata)
    (h : dictGet (scanSourceFiles files []) nm = some e) :
    dictGet (parse_all xmlDoc files) nm = some e := by
  obtain ⟨ins, hins⟩ := scanSourceFiles_factor files
  simp only [parse_all]
  rw [hins, dictGet_foldl_inserts, ← hins [], h]
  rfl

/-! ## Substring and path lemmas -/

theorem beginsWith_append (p t : List Char) : beginsWith p (p ++ t) = true := by
  induction p with
  | nil => rfl
  | cons c p ih => simp [beginsWith, ih]

theorem containsSub_of_begins (pat cs : List Char) (h : beginsWith pat cs = true) :
    containsSub pat cs = true := by
  cases cs with
  | nil => exact h
  | cons c cs => simp [containsSub, h]

theorem containsSub_append_left (u : List Char) (pat t : List Char)
    (h : containsSub pat t = true) : containsSub pat (u ++ t) = true := by
  induction u with
  | nil => exact h
  | cons c u ih => simp [containsSub, ih]

/-- A path one of whose segments is `s` contains `s` as a substring. -/
theorem containsSub_pathChars_of_mem :
    ∀ (segs : List String) (s : String), s ∈ segs →
      containsSub s.toList (pathChars segs) = true := by
  intro segs
  induction segs with
  | nil => intro s h; exact absurd h (List.not_mem_nil s)
  | cons a segs ih =>
    intro s h
    rcases List.mem_cons.mp h with h' | h'
    · subst h'
      cases segs with
      | nil =>
        have := beginsWith_append s.toList []
        rw [List.append_nil] at this
        exact containsSub_of_begins _ _ this
      | cons b rest =>
        exact containsSub_of_begins _ _ (beginsWith_append s.toList _)
    · cases segs with
      | nil => exact absurd h' (List.not_mem_nil s)
      | cons b rest =>
        have hin := ih s h'
        have heq : a.toList ++ '/' :: pathChars (b :: rest) =
            (a.toList ++ ['/']) ++ pathChars (b :: rest) := by
          simp
        show containsSub s.toList (a.toList ++ '/' :: pathChars (b :: rest)) = true
        rw [heq]
        exact containsSub_append_left _ _ _ hin

/-- A name is a substring of a text that embeds it between two fixed
pieces. -/
theorem strContains_embed (a nm b : String) :
    strContains (a ++ nm ++ b) nm = true := by
  show containsSub nm.data (a ++ nm ++ b).data = true
  rw [String.data_append, String.data_append, List.append_assoc]
  exact containsSub_append_left _ _ _
    (containsSub_of_begins _ _ (beginsWith_append nm.data b.data))

/-- Files whose path text contains `build` contribute nothing to the scan. -/
theorem scanSourceFiles_skip (files₁ : List SourceFile) (f : SourceFile)
    (files₂ : List SourceFile) (ps : Params)
    (h : strContains f.pathStr "build" = true) :
    scanSourceFiles (files₁ ++ f :: files₂) ps =
      scanSourceFiles (files₁ ++ files₂) ps := by
  simp only [scanSourceFiles, List.foldl_append, List.foldl_cons, h, if_true]

/-! ## Lemmas about the macro matcher -/

theorem takeDefault_eq (cs : List Char) (d rest : List Char)
    (h : takeDefault cs = some (d, rest)) :
    d = cs.takeWhile isDefaultChar := by
  unfold takeDefault at h
  by_cases he : (cs.takeWhile isDefaultChar).isEmpty = true
  · simp [he] at h
  · simp only [Bool.not_eq_true] at he
    simp only [he, Bool.false_eq_true, if_false, Option.some.injEq, Prod.mk.injEq] at h
    exact h.1.symm

/-- A successful match's default capture consists of default-class
characters only. -/
theorem matchParamDefineAt_default_chars (cs : List Char) (t nm d : String)
    (h : matchParamDefineAt cs = some (t, nm, d)) :
    ∀ c ∈ d.toList, isDefaultChar c = true := by
  simp only [matchParamDefineAt, bind, Option.bind_eq_some] at h
  obtain ⟨cs1, h1, h⟩ := h
  obtain ⟨⟨ty, cs2⟩, h2, h⟩ := h
  obtain ⟨cs3, h3, h⟩ := h
  obtain ⟨⟨nm', cs4⟩, h4, h⟩ := h
  obtain ⟨cs5, h5, h⟩ := h
  obtain ⟨⟨df, cs6⟩, h6, h⟩ := h
  obtain ⟨cs7, h7, h⟩ := h
  obtain ⟨cs8, h8, h⟩ := h
  simp only [Option.pure_def, Option.some.injEq, Prod.mk.injEq] at h
  obtain ⟨-, -, hd⟩ := h
  subst hd
  intro c hc
  have hdf := takeDefault_eq _ _ _ h6
  subst hdf
  exact List.mem_takeWhile_imp hc

/-- Searching inherits the default-capture character restriction. -/
theorem paramDefineSearch_default_chars :
    ∀ (cs : List Char) (t nm d : String),
      paramDefineSearch cs = some (t, nm, d) →
      ∀ c ∈ d.toList, isDefaultChar c = true := by
  intro cs
  induction cs with
  | nil => intro t nm d h; simp [paramDefineSearch] at h
  | cons c cs ih =>
    intro t nm d h
    cases hm : matchParamDefineAt (c :: cs) with
    | some r =>
      simp only [paramDefineSearch, hm] at h
      cases h
      exact matchParamDefineAt_default_chars (c :: cs) t nm d hm
    | none =>
      simp only [paramDefineSearch, hm] at h
      exact ih t nm d h

/-! ## Round trip of the whole document -/

theorem decodeParamsList_encode (ps : Params) :
    decodeParamsList (ps.map (fun kv => (kv.1, encodeParam kv.2))) = some ps := by
  induction ps with
  | nil => rfl
  | cons kv ps ih =>
    simp [decodeParamsList, decodeParam_encodeParam, ih]

/-! ## Claim theorems -/

/-- C1: the claim says a `min`/`max`/`unit`/`decimal` child's text is parsed
into the entry.  The code's walrus test `if min_elem := param_elem.find('min'):`
checks ElementTree Element truthiness, which is `len(children) != 0`; a
text-only child element is falsy, so the entry is created with all four
optional fields `None` even though the children are present with parseable
text.  This theorem evaluates the embedded `_parse_parameter` at such an
element. -/
theorem C1_xml_optional_fields_dropped :
    (parseParameterElem c1Param "G").map
      (fun p => (p.min_val, p.max_val, p.unit, p.decimal)) =
      some (none, none, none, none) := by
  decide

/-- C2: a parse exception for the whole XML document leaves the shared
mapping exactly as it was, logs the error and propagates nothing (the
function returns normally).  `ET.parse` consumes the document before any
element is visited, so the failure happens before any insertion. -/
theorem C2_parse_error_preserves_mapping (e : String) (ps : Params) :
    parse_xml_file (.error e) ps = (ps, ["Error parsing: " ++ e]) := rfl

/-- C3 counterexample: in the inside-comment state, a line that contains the
block-comment-open marker `/**` (here one that also contains `*/`) is NOT
appended to the buffer — the comment-start branch fires first, resets the
buffer and stays inside a comment — refuting both halves of the claim at
this input. -/
theorem C3_counterexample :
    (stepLine "f.c" 1 (ScanSt.mk ["* x"] true [] []) "end */ then /** again").in_comment
        = true ∧
      (stepLine "f.c" 1 (ScanSt.mk ["* x"] true [] []) "end */ then /** again").current_comment
        = [] ∧
      (stepLine "f.c" 1 (ScanSt.mk ["* x"] true [] []) "end */ then /** again").current_comment
        ≠ ["* x", "end */ then /** again"] := by
  refine ⟨by decide, by decide, by decide⟩

/-- C3 amended: while the scanner is in the inside-comment state, every
processed (stripped) line that does not contain the comment-open marker
`/**` is appended verbatim to the buffer, and such a line containing `*/`
is appended and transitions back to outside-comment; a line containing
`/**` instead resets the buffer and stays inside-comment
(`C3_counterexample`). -/
theorem C3_inside_comment_append (src : String) (n : Nat) (st : ScanSt)
    (raw : String) (h2 : st.in_comment = true)
    (h1 : strContains (pyStrip raw) "/**" = false) :
    (stepLine src n st raw).current_comment = st.current_comment ++ [pyStrip raw] ∧
      (stepLine src n st raw).in_comment = !(strContains (pyStrip raw) "*/") := by
  by_cases hCl : strContains (pyStrip raw) "*/" = true
  · rw [stepLine_inside_close src n st raw h1 h2 hCl, hCl]
    exact ⟨rfl, rfl⟩
  · simp only [Bool.not_eq_true] at hCl
    rw [stepLine_inside_cont src n st raw h1 h2 hCl, hCl]
    exact ⟨rfl, h2⟩

/-- C3 amended, witnessed at a closing line without an open marker. -/
theorem C3_inside_comment_append_witness :
    (stepLine "f.c" 2 (ScanSt.mk ["* a"] true [] []) " * doc */ ").current_comment
        = ["* a", "* doc */"] ∧
      (stepLine "f.c" 2 (ScanSt.mk ["* a"] true [] []) " * doc */ ").in_comment
        = false := by
  have h := C3_inside_comment_append "f.c" 2 (ScanSt.mk ["* a"] true [] [])
    " * doc */ " rfl (by decide)
  exact ⟨h.1.trans (by decide), h.2.trans (by decide)⟩

/-- C4: the end-to-end example — the comment block `/** * Short desc *
@min 0 * @max 10 * @group Test */` followed by
`PARAM_DEFINE_FLOAT(MY_PARAM, 1.5);` — produces exactly one entry, keyed
`MY_PARAM`, with type `FLOAT`, default `"1.5"`, short description
`Short desc`, bounds 0 and 10, and group `Test` (see `c4Expected`). -/
theorem C4_end_to_end :
    (parse_source_file "test.c" c4Content []).1 = [("MY_PARAM", c4Expected)] := by
  decide

/-- C5: the shared mapping holds at most one entry per name at every point
(insertion preserves the invariant, both pipeline stages preserve it, and
the pipeline result satisfies it); an insertion fully replaces any prior
entry with the same name and leaves other names untouched (no field-level
merge); and since XML ingestion runs strictly before source scanning inside
`parse_all`, any name defined by the source scan ends up with its
source-derived entry in the final mapping, regardless of what the XML
document contributed. -/
theorem C5_mapping_invariants :
    (∀ (m : Params) (k : String) (v : ParameterMetadata),
        NodupKeys m → NodupKeys (dictInsert m k v)) ∧
      (∀ (m : Params) (k : String) (v : ParameterMetadata),
        dictGet (dictInsert m k v) k = some v) ∧
      (∀ (m : Params) (k k' : String) (v : ParameterMetadata),
        k' ≠ k → dictGet (dictInsert m k v) k' = dictGet m k') ∧
      (∀ (doc : Except String Xml) (ps : Params),
        NodupKeys ps → NodupKeys (parse_xml_file doc ps).1) ∧
      (∀ (rel content : String) (ps : Params),
        NodupKeys ps → NodupKeys (parse_source_file rel content ps).1) ∧
      (∀ (xmlDoc : Option (Except String Xml)) (files : List SourceFile),
        NodupKeys (parse_all xmlDoc files)) ∧
      (∀ (xmlDoc : Option (Except String Xml)) (files : List SourceFile)
        (nm : String) (e : ParameterMetadata),
        dictGet (scanSourceFiles files []) nm = some e →
        dictGet (parse_all xmlDoc files) nm = some e) := by
  refine ⟨nodupKeys_dictInsert, dictGet_dictInsert_self, ?_,
    nodupKeys_parse_xml_file, nodupKeys_parse_source_file, nodupKeys_parse_all,
    parse_all_source_overrides⟩
  intro m k k' v h
  exact dictGet_dictInsert_ne m k k' v h

/-- C5, witnessed: `DUP` is defined by both the injected XML document and a
scanned source file, and the final mapping holds the source-derived entry. -/
theorem C5_mapping_invariants_witness :
    dictGet (parse_all (some (.ok c5Xml)) c5Files) "DUP" = some c5SrcEntry := by
  exact C5_mapping_invariants.2.2.2.2.2.2 (some (.ok c5Xml)) c5Files "DUP"
    c5SrcEntry (by decide)

/-- C6: comment-open detection and macro detection are mutually exclusive on
every line — a line containing `/**` takes the comment-open branch and never
produces an entry (first conjunct); a line processed in the inside-comment
state never produces an entry either (second conjunct); consequently, after
an unterminated comment block (no later line contains `*/`) every remaining
line, macro lines included, leaves the mapping untouched (third
conjunct). -/
theorem C6_comment_macro_exclusive :
    (∀ (src : String) (n : Nat) (st : ScanSt) (raw : String),
        strContains (pyStrip raw) "/**" = true →
        (stepLine src n st raw).params = st.params ∧
          (stepLine src n st raw).in_comment = true ∧
          (stepLine src n st raw).current_comment = []) ∧
      (∀ (src : String) (n : Nat) (st : ScanSt) (raw : String),
        st.in_comment = true → (stepLine src n st raw).params = st.params) ∧
      (∀ (src : String) (ls : List String) (st : ScanSt) (n : Nat),
        st.in_comment = true →
        (∀ l ∈ ls, strContains (pyStrip l) "*/" = false) →
        (scanLines src st n ls).params = st.params) := by
  refine ⟨?_, ?_, ?_⟩
  · intro src n st raw h
    rw [stepLine_open src n st raw h]
    exact ⟨rfl, rfl, rfl⟩
  · intro src n st raw h2
    by_cases hO : strContains (pyStrip raw) "/**" = true
    · rw [stepLine_open src n st raw hO]
    · simp only [Bool.not_eq_true] at hO
      by_cases hCl : strContains (pyStrip raw) "*/" = true
      · rw [stepLine_inside_close src n st raw hO h2 hCl]
      · simp only [Bool.not_eq_true] at hCl
        rw [stepLine_inside_cont src n st raw hO h2 hCl]
  · intro src ls st n h2 hcl
    exact (scanLines_swallow src ls st n h2 hcl).1

/-- C6, witnessed: a macro line after an unterminated comment block produces
no entry. -/
theorem C6_comment_macro_exclusive_witness :
    (scanLines "f.c" (ScanSt.mk [] true [] []) 0
      ["PARAM_DEFINE_FLOAT(SWALLOWED, 1);"]).params = [] := by
  exact C6_comment_macro_exclusive.2.2 "f.c" ["PARAM_DEFINE_FLOAT(SWALLOWED, 1);"]
    (ScanSt.mk [] true [] []) 0 rfl (by decide)

/-- C7: when a macro match's comment buffer makes `buildParam` raise (for
example an unparsable numeric tag), no entry is inserted or overwritten (the
mapping is exactly unchanged), the error is logged in a message embedding
the parameter name, the comment buffer is cleared, and the scan of the file
simply continues with the next line. -/
theorem C7_bad_tag_drops_parameter (src : String) (n : Nat) (st : ScanSt)
    (raw t nm d e : String)
    (h1 : strContains (pyStrip raw) "/**" = false)
    (h2 : st.in_comment = false)
    (h3 : paramDefineSearch (pyStrip raw).toList = some (t, nm, d))
    (h4 : buildParam t nm d st.current_comment src n = .error e) :
    (stepLine src n st raw).params = st.params ∧
      (stepLine src n st raw).current_comment = [] ∧
      (stepLine src n st raw).log =
        st.log ++ ["Error processing parameter " ++ nm ++ ": " ++ e] ∧
      strContains ("Error processing parameter " ++ nm ++ ": " ++ e) nm = true ∧
      (∀ (m : Nat) (rest : List String),
        scanLines src st m (raw :: rest) =
          scanLines src (stepLine src (m + 1) st raw) (m + 1) rest) := by
  rw [stepLine_outside_some src n st raw t nm d h1 h2 h3]
  refine ⟨?_, rfl, ?_, ?_, fun m rest => scanLines_cons src st m raw rest⟩
  · simp only [processParameterDefinition, h4]
  · simp only [processParameterDefinition, h4]
  · rw [String.append_assoc ("Error processing parameter " ++ nm) ": " e]
    exact strContains_embed "Error processing parameter " nm (": " ++ e)

/-- C7, witnessed: `@min ten` drops `BAD_P` with a logged message and an
unchanged mapping. -/
theorem C7_bad_tag_drops_parameter_witness :
    (stepLine "x.c" 1 (ScanSt.mk ["* @min ten"] false [] [])
        "PARAM_DEFINE_FLOAT(BAD_P, 1);").params = [] ∧
      (stepLine "x.c" 1 (ScanSt.mk ["* @min ten"] false [] [])
        "PARAM_DEFINE_FLOAT(BAD_P, 1);").log =
        ["Error processing parameter BAD_P: could not convert string to float: ten"] := by
  have h := C7_bad_tag_drops_parameter "x.c" 1
    (ScanSt.mk ["* @min ten"] false [] []) "PARAM_DEFINE_FLOAT(BAD_P, 1);"
    "FLOAT" "BAD_P" "1" "could not convert string to float: ten"
    (by decide) rfl (by decide) (by rfl)
  exact ⟨h.1, h.2.2.1⟩

/-- C8: a file one of whose path segments is `build` has `build` in its path
text, so the `'build' not in str(src_file)` filter skips it: removing such a
file from the scan list leaves the whole pipeline result unchanged — the
extractor is never invoked on it, whatever its extension (the scan list
already ranges over the matched extensions). -/
theorem C8_build_segment_never_scanned (segs : List String)
    (h : "build" ∈ segs) (rel content : String)
    (xmlDoc : Option (Except String Xml)) (files₁ files₂ : List SourceFile) :
    strContains (String.mk (pathChars segs)) "build" = true ∧
      parse_all xmlDoc
          (files₁ ++ SourceFile.mk (String.mk (pathChars segs)) rel content :: files₂) =
        parse_all xmlDoc (files₁ ++ files₂) := by
  have hc : strContains (String.mk (pathChars segs)) "build" = true :=
    containsSub_pathChars_of_mem segs "build" h
  refine ⟨hc, ?_⟩
  simp only [parse_all]
  exact scanSourceFiles_skip files₁ _ files₂ _ hc

/-- C8, witnessed on the path `repo/build/x.c`. -/
theorem C8_build_segment_never_scanned_witness :
    parse_all none
        ([] ++ SourceFile.mk (String.mk (pathChars ["repo", "build", "x.c"])) "x.c"
          "PARAM_DEFINE_FLOAT(A, 1);" :: []) =
      parse_all none ([] ++ []) := by
  exact (C8_build_segment_never_scanned ["repo", "build", "x.c"] (by simp)
    "x.c" "PARAM_DEFINE_FLOAT(A, 1);" none [] []).2

/-- C9: deserializing the JSON document written by the serializer
reconstructs a name-keyed mapping equal in all fields to the in-memory
mapping as it was before serialization (`None`-valued optional fields are
rendered as JSON null by `jOptNum`/`jOptInt`/`jOptNat`/`jOptStr` and read
back as `none`). -/
theorem C9_serializer_roundtrip (ps : Params) :
    decodeParams (save_parameters ps) = some ps := by
  simp only [save_parameters, decodeParams]
  exact decodeParamsList_encode ps

/-- C10: in the outside-comment state an entry can only come from a
`re_param_define` match (no match leaves the mapping untouched, first
conjunct); any match's default capture contains no space, comma or closing
parenthesis (second conjunct); and concrete macro invocations whose default
literal breaks that shape — a cast, a function call, an expression with a
space, or a missing trailing semicolon — produce no match at all, while the
well-formed line matches with its three captures (remaining conjuncts). -/
theorem C10_macro_default_shape :
    (∀ (src : String) (n : Nat) (st : ScanSt) (raw : String),
        paramDefineSearch (pyStrip raw).toList = none →
        (stepLine src n st raw).params = st.params) ∧
      (∀ (cs : List Char) (t nm d : String),
        paramDefineSearch cs = some (t, nm, d) →
        ' ' ∉ d.toList ∧ ',' ∉ d.toList ∧ ')' ∉ d.toList) ∧
      paramDefineSearch "PARAM_DEFINE_FLOAT(MY_PARAM, (float)1.5);".toList = none ∧
      paramDefineSearch "PARAM_DEFINE_INT32(MY_PARAM, foo(3));".toList = none ∧
      paramDefineSearch "PARAM_DEFINE_FLOAT(MY_PARAM, 1.5 f);".toList = none ∧
      paramDefineSearch "PARAM_DEFINE_FLOAT(MY_PARAM, 1.5)".toList = none ∧
      paramDefineSearch "PARAM_DEFINE_FLOAT(MY_PARAM, 1.5);".toList =
        some ("FLOAT", "MY_PARAM", "1.5") := by
  refine ⟨?_, ?_, by decide, by decide, by decide, by decide, by decide⟩
  · intro src n st raw hm
    by_cases hO : strContains (pyStrip raw) "/**" = true
    · rw [stepLine_open src n st raw hO]
    · simp only [Bool.not_eq_true] at hO
      by_cases hic : st.in_comment = true
      · by_cases hCl : strContains (pyStrip raw) "*/" = true
        · rw [stepLine_inside_close src n st raw hO hic hCl]
        · simp only [Bool.not_eq_true] at hCl
          rw [stepLine_inside_cont src n st raw hO hic hCl]
      · simp only [Bool.not_eq_true] at hic
        rw [stepLine_outside_none src n st raw hO hic hm]
  · intro cs t nm d h
    have hall := paramDefineSearch_default_chars cs t nm d h
    refine ⟨fun hmem => ?_, fun hmem => ?_, fun hmem => ?_⟩
    · have := hall ' ' hmem
      simp [isDefaultChar] at this
    · have := hall ',' hmem
      simp [isDefaultChar] at this
    · have := hall ')' hmem
      simp [isDefaultChar] at this

/-- C10, witnessed: a plain code line with no macro leaves the mapping
untouched. -/
theorem C10_macro_default_shape_witness :
    (stepLine "f.c" 1 (ScanSt.mk [] false [] []) "int x = 0;").params = [] := by
  exact C10_macro_default_shape.1 "f.c" 1 (ScanSt.mk [] false [] []) "int x = 0;"
    (by decide)
